import Mathlib

/-
  Shallow embedding of beancount_balancechange/balance_change.py.

  The module is a beancount plugin: `balance_change(entries, options_map)`
  replays a list of directives, keeps a running balance tree for the accounts
  named by `custom "balance_change"` assertions, snapshots each assertion
  window at its `since` date, and compares snapshot-to-now deltas against the
  expected change.

  Modelling conventions:
  * beancount Decimal numbers are embedded as rationals. Decimal arithmetic
    in this program stays within the default 28-digit context for all inputs
    used in the theorems below, so subtraction is exact.
  * Dates are embedded as integers (only comparison and equality are used).
  * The beancount collaborators (realization, getters, amount,
    account.parent_matcher) are not part of this repository; they are
    embedded following the collaborator contracts of the spec (sec. 6):
    - the realization tree is a set of created node paths plus a per
      (account, currency) quantity map; `realization.get` succeeds exactly on
      created nodes; `compute_balance(..., leaf_only=False)` followed by
      `get_currency_units(cur)` sums the quantities of the node and all its
      descendants in `cur`;
    - `getters.get_accounts` enumerates the account paths appearing in the
      directives; `get_account_open_close` maps an account to its Open
      directive, if any; `account.parent_matcher(p)` matches `p` itself and
      accounts below `p` (segment-boundary-respecting colon-path match).
  * Python exceptions abort the whole call, so the transform is embedded in
    `Except Crash`; each `Crash` constructor names the concrete Python
    exception site it stands for.
  * Python set iteration order (lines 71-73 of the source) is hash-based and
    unspecified; it is embedded as first-occurrence order. Every concrete
    input evaluated below uses singleton account/currency sets, for which all
    iteration orders agree.
-/

namespace BalanceChange

abbrev Date := Int
abbrev Currency := String
abbrev Account := String

/-- beancount `Amount`: a (Decimal) number with a currency. -/
structure Amount where
  number : ℚ
  currency : Currency
deriving DecidableEq, Repr

/-- One leg of a transaction (cost-less posting: account plus signed units). -/
structure Posting where
  account : Account
  units : Amount
deriving DecidableEq, Repr

/-- A beancount `Transaction`: a date and its postings. -/
structure Txn where
  date : Date
  postings : List Posting
deriving DecidableEq, Repr

/-- A beancount `Custom` directive as used by this plugin: `ctype` is
`entry.type`; `expr` is `entry.values[0].value` (free text, from which the
account is regex-extracted); `exprIsAccount` records whether the parser gave
that value the account dtype (then `getters.get_accounts` reports it);
`expectedAmount` is `entry.values[1].value`; `since` is `entry.meta[since]`,
which the plugin requires to be present. -/
structure CustomEntry where
  date : Date
  ctype : String
  exprIsAccount : Bool
  expr : String
  expectedAmount : Amount
  since : Date
deriving DecidableEq, Repr

/-- A beancount `Open` directive: account plus optional currency restriction
(`none` embeds Python `None`; `some []` embeds an empty list, which is falsy
in the source condition `open.currencies and ...`). -/
structure OpenEntry where
  date : Date
  account : Account
  currencies : Option (List Currency)
deriving DecidableEq, Repr

/-- A directive. Directives other than transactions, opens and customs are
opaque to the plugin and pass through; they are embedded by an id. -/
inductive Directive where
  | txn (t : Txn)
  | custom (c : CustomEntry)
  | openDir (o : OpenEntry)
  | other (id : Nat)
deriving DecidableEq, Repr

/-- Python `\x5cw` (ASCII fragment: the inputs below are all ASCII). -/
def wordChar (c : Char) : Bool := c.isAlphanum || c = '_'

/-- The five root alternatives of the account regex of
`get_account_from_entry`, in source order (none is a prefix of another, so
the alternation is order-independent). -/
def rootAlts : List (List Char) :=
  ["Assets".data, "Liabilities".data, "Expenses".data, "Equity".data, "Income".data]

/-- Greedy match of `(:\x5cw+)+` at the head of the character list: consume
as many `:word` groups as possible and return the matched characters
(empty when no group matches). Fuel bounds recursion; each group consumes at
least two characters, so `fuel = length` always suffices. -/
def groupsAux : Nat → List Char → List Char
  | 0, _ => []
  | _ + 1, [] => []
  | fuel + 1, c :: rest =>
    if c = ':' then
      let w := rest.takeWhile wordChar
      if w.isEmpty then []
      else ':' :: w ++ groupsAux fuel (rest.dropWhile wordChar)
    else []

/-- Embeds `re.match` of `((Assets|Liabilities|Expenses|Equity|Income)(:\x5cw+)+)`
applied to the expression text, returning `group(0)` (the regex is anchored
at position 0 and greedy; with nothing after the final `+` no backtracking
can occur, so greedy maximal-munch is exact). `none` embeds `re.match`
returning `None`, on which the source `.group(0)` raises AttributeError. -/
def extractAccount (s : String) : Option Account :=
  match rootAlts.find? (fun r => r.isPrefixOf s.data) with
  | none => none
  | some r =>
    let rest := s.data.drop r.length
    let g := groupsAux rest.length rest
    if g.isEmpty then none else some (String.mk (r ++ g))

/-- Source `is_balance_change_entry`: a Custom directive with type balance_change. -/
def is_balance_change_entry (e : Directive) : Bool :=
  match e with
  | .custom c => c.ctype = "balance_change"
  | _ => false

/-- The balance-change assertions of the input, in input order (source line
66: the comprehension over `entries`). -/
def assertionsOf (entries : List Directive) : List CustomEntry :=
  entries.filterMap fun e =>
    match e with
    | .custom c => if c.ctype = "balance_change" then some c else none
    | _ => none

/-- Embeds `getters.get_accounts`: the account paths appearing in the directives
(Open accounts, posting accounts, and account-typed Custom values). The
source consumes this as a set: only membership and once-per-account iteration
matter, and the fold below deduplicates on insertion. -/
def get_accounts (entries : List Directive) : List Account :=
  entries.flatMap fun e =>
    match e with
    | .txn t => t.postings.map (·.account)
    | .openDir o => [o.account]
    | .custom c => if c.exprIsAccount then [c.expr] else []
    | .other _ => []

/-- Embeds `getters.get_account_open_close`, restricted to the Open component the
source reads (spec sec. 6: given an account, retrieve its Open directive, if
any). -/
def openMapOf (entries : List Directive) (a : Account) : Option OpenEntry :=
  (entries.filterMap fun e =>
    match e with
    | .openDir o => if o.account = a then some o else none
    | _ => none).head?

/-- Embeds `account.parent_matcher(parent)` applied to `a`: `a` is `parent` itself
or lies strictly below it (colon segment boundary respected). -/
def parentMatch (parent a : Account) : Bool :=
  a = parent || (parent.data ++ [':']).isPrefixOf a.data

/-- Split a character list on `:` (never returns the empty list). -/
def splitSegs : List Char → List (List Char)
  | [] => [[]]
  | c :: rest =>
    match splitSegs rest with
    | [] => [[]]
    | seg :: segs => if c = ':' then [] :: seg :: segs else (c :: seg) :: segs

/-- The strict ancestor paths accumulated left to right: `prefixPaths s rest`
lists the colon-joins of every proper prefix of `s :: rest`. -/
def prefixPaths : List Char → List (List Char) → List (List Char)
  | _, [] => []
  | cur, seg :: rest => cur :: prefixPaths (cur ++ ':' :: seg) rest

/-- The node paths `realization.get_or_create(root, a)` creates: the strict
ancestors of `a` followed by `a` itself. -/
def nodePathsOf (a : Account) : List Account :=
  (match splitSegs a.data with
   | [] => []
   | s :: rest => (prefixPaths s rest).map String.mk) ++ [a]

/-- Append `x` unless present (node creation is idempotent). -/
def insertNew (l : List Account) (x : Account) : List Account :=
  if x ∈ l then l else l ++ [x]

/-- Embeds `realization.get_or_create` restricted to the created-node set. -/
def getOrCreateAccs (l : List Account) (a : Account) : List Account :=
  (nodePathsOf a).foldl insertNew l

/-- The crash sites of the source, i.e. the uncaught Python exceptions the
call can raise. -/
inductive Crash where
  /-- AttributeError in `get_account_from_entry`: `re.match` returned `None`
  and `.group(0)` was taken (source line 36). -/
  | regexFailure (expr : String)
  /-- KeyError on `t1_amounts[...]` (source line 149): the (account, since,
  currency) triple of an assertion is not a key of the store. -/
  | missingSnapshotKey (k : Account × Date × Currency)
  /-- AssertionError `Missing ...` (source lines 95 and 144): a tracked
  account has no node in the realization tree. -/
  | missingNode (acc : Account)
  /-- AttributeError in `amount.sub` (source line 152): the snapshot is still
  the string sentinel NaN, which has neither `.number` nor `.currency`. -/
  | nanSubtraction (k : Account × Date × Currency)
deriving DecidableEq, Repr

abbrev SnapKey := Account × Date × Currency

/-- The accounts extracted from the assertions (source line 71); the first
regex failure aborts the call. -/
def assertedAccountsE (entries : List Directive) : Except Crash (List Account) :=
  (assertionsOf entries).mapM fun c =>
    match extractAccount c.expr with
    | some a => .ok a
    | none => .error (.regexFailure c.expr)

/-- First-occurrence deduplication: the embedding of iterating a Python set
built from a list (the hash-based order is unspecified; see header note). -/
def dedupFirst [DecidableEq α] : List α → List α
  | [] => []
  | a :: rest => a :: dedupFirst (rest.filter (· ≠ a))
termination_by l => l.length
decreasing_by
  exact Nat.lt_succ_of_le (List.length_filter_le _ _)

/-- Positional `zip` of three lists, truncating to the shortest. -/
def zip3 : List α → List β → List γ → List (α × β × γ)
  | a :: as, b :: bs, c :: cs => (a, b, c) :: zip3 as bs cs
  | _, _, _ => []

/-- Source line 73: `t1_amounts = {(bank,date,currency): "NaN" for ... in
zip(asserted_accounts, t1_dates, asserted_currencies)}`. The account and
currency components are deduplicated sets while the date component is the
per-assertion list, so the zip truncates to the shortest of the three.
`none` embeds the string sentinel NaN (unresolved). -/
def t1Init (entries : List Directive) : Except Crash (List (SnapKey × Option ℚ)) := do
  let accs ← assertedAccountsE entries
  let dates := (assertionsOf entries).map (·.since)
  let curs := (assertionsOf entries).map (·.expectedAmount.currency)
  .ok ((zip3 (dedupFirst accs) dates (dedupFirst curs)).map fun k => (k, none))

/-- Source lines 78-83: pre-create nodes exactly for the ledger accounts that
are an asserted account or match an asserted parent matcher, ancestors
included via `get_or_create`. -/
def initAccounts (entries : List Directive) : Except Crash (List Account) := do
  let accs ← assertedAccountsE entries
  .ok (((get_accounts entries).filter
        (fun a => a ∈ accs || accs.any fun b => parentMatch b a)).foldl getOrCreateAccs [])

/-- The realization tree: the created node paths and the per
(account, currency) quantities (absent key = zero). -/
structure RealTree where
  accounts : List Account
  bal : List ((Account × Currency) × ℚ)
deriving DecidableEq, Repr

/-- Association-list lookup by decidable equality. -/
def alookup [DecidableEq κ] (k : κ) : List (κ × β) → Option β
  | [] => none
  | (k', v) :: rest => if k' = k then some v else alookup k rest

/-- Add `n` to the quantity stored at `k` (insert if absent). -/
def addUnits (l : List ((Account × Currency) × ℚ)) (k : Account × Currency) (n : ℚ) :
    List ((Account × Currency) × ℚ) :=
  match l with
  | [] => [(k, n)]
  | (k', v) :: rest => if k' = k then (k', v + n) :: rest else (k', v) :: addUnits rest k n

/-- The quantity of `a` in currency `c` (zero when absent). -/
def balUnits (t : RealTree) (a : Account) (c : Currency) : ℚ :=
  (alookup (a, c) t.bal).getD 0

/-- Embeds `realization.compute_balance(node, leaf_only=False)` followed by
`.get_currency_units(cur)`: the summed quantity in `cur` over the node `acc`
and all its tree descendants. -/
def subtreeUnits (t : RealTree) (acc : Account) (cur : Currency) : ℚ :=
  (t.accounts.filter fun a => parentMatch acc a).foldl (fun s a => s + balUnits t a cur) 0

/-- Source lines 109-116: `realization.get` on the posting account; absent
nodes are skipped, present nodes receive the posting units. -/
def applyPosting (tree : RealTree) (p : Posting) : RealTree :=
  if p.account ∈ tree.accounts then
    { tree with bal := addUnits tree.bal (p.account, p.units.currency) p.units.number }
  else tree

/-- The message of a `BalanceError`, kept structured; `renderMsg` produces
the exact source format strings from it. -/
inductive ErrMsg where
  | unknownAccount (acc : Account)
  | invalidCurrency (cur : Currency)
  | changeMismatch (acc : Account) (expected : Amount) (actualChange : Amount)
      (absDiff : ℚ) (tooMuch : Bool)
deriving DecidableEq, Repr

/-- Embeds `BalanceError(source, message, entry)`; the `source` metadata component
carries no behavior and is omitted. -/
structure BErr where
  message : ErrMsg
  entry : Directive
deriving DecidableEq, Repr

/-- The exact message texts of source lines 127, 136 and 160-166, with the
number and amount renderers (`Decimal.__str__`, `Amount.__str__` of the
external library) passed in as parameters. -/
def renderMsg (amountStr : Amount → String) (numStr : ℚ → String) : ErrMsg → String
  | .unknownAccount acc =>
      "Invalid reference to unknown account \x27" ++ acc ++ "\x27"
  | .invalidCurrency cur =>
      "Invalid currency \x27" ++ cur ++ "\x27 for Balance directive: "
  | .changeMismatch acc expected actualChange absDiff tooMuch =>
      "Balance change check failed for \x27" ++ acc ++ "\x27: expected a change of "
        ++ amountStr expected ++ " != actual change " ++ amountStr actualChange
        ++ " (" ++ numStr absDiff ++ " "
        ++ (if tooMuch then "too much" else "too little") ++ ")"

/-- The tolerance actually compared against on source line 156. The literal
`0.005` is a Python float and `diff_amount.number` is a Decimal; Python
compares the two exactly, converting the float to its exact rational value,
which is `5764607523034235 / 2^60` (the IEEE-754 double nearest to 1/200,
about 1/200 + 1.04e-19), not 1/200. -/
def tolF : ℚ := 5764607523034235 / 1152921504606846976

/-- The currency-validation errors of source lines 131-138: emitted when the
Open directive carries a non-empty currency list not containing the expected
currency (`open.currencies` is falsy when `None` or empty). -/
def currencyErrs (op : OpenEntry) (c : CustomEntry) : List BErr :=
  match op.currencies with
  | some cs =>
    if cs ≠ [] ∧ c.expectedAmount.currency ∉ cs then
      [⟨.invalidCurrency c.expectedAmount.currency, .custom c⟩]
    else []
  | none => []

/-- The change-mismatch errors of source lines 156-167 for an assertion with
actual change `actualQ`: one error when the difference exceeds the tolerance,
none otherwise. -/
def mismatchErrs (acc : Account) (c : CustomEntry) (actualQ : ℚ) : List BErr :=
  let diffQ := actualQ - c.expectedAmount.number
  if tolF < |diffQ| then
    [⟨.changeMismatch acc c.expectedAmount ⟨actualQ, c.expectedAmount.currency⟩
        |diffQ| (decide (0 < diffQ)), .custom c⟩]
  else []

/-- The replay state: balance tree, snapshot store, accumulated errors,
output directives. -/
structure St where
  tree : RealTree
  t1 : List (SnapKey × Option ℚ)
  errors : List BErr
  output : List Directive
deriving DecidableEq, Repr

/-- Source `update_t1_amounts` (lines 88-100): resolve every still-unresolved
snapshot key whose since-date is at or before `d` to the current subtree
balance of its account in its currency; a tracked account without a node is
the AssertionError of line 95. -/
def update_t1_amounts (d : Date) (tree : RealTree) :
    List (SnapKey × Option ℚ) → Except Crash (List (SnapKey × Option ℚ))
  | [] => .ok []
  | (k, v) :: rest =>
    match v with
    | some q => do
      let rest' ← update_t1_amounts d tree rest
      .ok ((k, some q) :: rest')
    | none =>
      if k.2.1 ≤ d then
        if k.1 ∈ tree.accounts then do
          let rest' ← update_t1_amounts d tree rest
          .ok ((k, some (subtreeUnits tree k.1 k.2.2)) :: rest')
        else .error (.missingNode k.1)
      else do
        let rest' ← update_t1_amounts d tree rest
        .ok ((k, none) :: rest')

/-- The per-key effect of a successful `update_t1_amounts` at date `d`:
resolved keys are untouched, unresolved keys whose since-date is at or
before `d` capture the current subtree balance, later keys stay unresolved. -/
def resolveKV (d : Date) (tree : RealTree) (kv : SnapKey × Option ℚ) :
    SnapKey × Option ℚ :=
  match kv with
  | (k, some q) => (k, some q)
  | (k, none) =>
    if k.2.1 ≤ d then (k, some (subtreeUnits tree k.1 k.2.2)) else (k, none)

/-- The assertion branch of the replay loop (source lines 118-167 and the
trailing append of line 178, which the unknown-account `continue` of line
129 skips). -/
def procAssertion (openMap : Account → Option OpenEntry) (st : St) (c : CustomEntry) :
    Except Crash St :=
  match extractAccount c.expr with
  | none => .error (.regexFailure c.expr)
  | some acc =>
    match openMap acc with
    | none => .ok { st with errors := st.errors ++ [⟨.unknownAccount acc, .custom c⟩] }
    | some op =>
      if acc ∈ st.tree.accounts then
        match alookup (acc, c.since, c.expectedAmount.currency) st.t1 with
        | none => .error (.missingSnapshotKey (acc, c.since, c.expectedAmount.currency))
        | some none => .error (.nanSubtraction (acc, c.since, c.expectedAmount.currency))
        | some (some startQ) =>
          .ok { st with
                errors := st.errors ++ currencyErrs op c
                  ++ mismatchErrs acc c
                      (subtreeUnits st.tree acc c.expectedAmount.currency - startQ),
                output := st.output ++ [.custom c] }
      else .error (.missingNode acc)

/-- One iteration of the replay loop (source lines 103-178): transactions
first resolve snapshots at their date and then apply their postings; custom
balance_change entries are evaluated; everything else passes through. -/
def procEntry (openMap : Account → Option OpenEntry) (st : St) (e : Directive) :
    Except Crash St :=
  match e with
  | .txn t => do
    let t1' ← update_t1_amounts t.date st.tree st.t1
    .ok { st with
          t1 := t1'
          tree := t.postings.foldl applyPosting st.tree
          output := st.output ++ [.txn t] }
  | .custom c =>
    if c.ctype = "balance_change" then procAssertion openMap st c
    else .ok { st with output := st.output ++ [.custom c] }
  | e => .ok { st with output := st.output ++ [e] }

/-- Replay a directive list from a state. -/
def runFrom (openMap : Account → Option OpenEntry) (st : St) (l : List Directive) :
    Except Crash St :=
  l.foldlM (procEntry openMap) st

/-- Source `balance_change(entries, options_map)` (the options are unused by the
source): build the snapshot store and the restricted realization tree, then
replay; returns the output directives and the accumulated errors, or the
Python exception that aborted the call. -/
def balance_change (entries : List Directive) :
    Except Crash (List Directive × List BErr) := do
  let t1 ← t1Init entries
  let laccs ← initAccounts entries
  let st ← runFrom (openMapOf entries) ⟨⟨laccs, []⟩, t1, [], []⟩ entries
  .ok (st.output, st.errors)

/-- Whether the replay of directive `e` appends `e` to the output list: true
for every directive except a balance_change assertion whose extracted account
is unknown (the `continue` of source line 129 skips the append of line 178).
The regex-failure case is marked kept; it cannot occur in a run that returns. -/
def keptEntry (openMap : Account → Option OpenEntry) (e : Directive) : Bool :=
  match e with
  | .custom c =>
    if c.ctype = "balance_change" then
      match extractAccount c.expr with
      | some acc => (openMap acc).isSome
      | none => true
    else true
  | _ => true

/-- Whether directive `e` is a transaction that triggers resolution of a
snapshot key with since-date `since` (source line 89). -/
def qualifiesB (e : Directive) (since : Date) : Bool :=
  match e with
  | .txn t => since ≤ t.date
  | _ => false

/-- Whether an Except value is a success. -/
def isOkB : Except Crash (List Directive × List BErr) → Bool
  | .ok _ => true
  | .error _ => false

/-- The per-assertion side conditions under which the replay loop cannot
crash, checked along the list with `seen` accumulating the dates of the
transactions already replayed: every balance_change assertion must
regex-extract an account, and (unless the account is unknown, which only
appends an error) the account must have a pre-created node, the assertion
triple must be a key of the snapshot store, and an earlier transaction must
have reached the since-date (else the sentinel NaN crashes `amount.sub`). -/
def wfAux (openMap : Account → Option OpenEntry) (L0 : List Account)
    (t10 : List (SnapKey × Option ℚ)) : List Date → List Directive → Bool
  | _, [] => true
  | seen, .txn t :: rest => wfAux openMap L0 t10 (t.date :: seen) rest
  | seen, .custom c :: rest =>
    (if c.ctype = "balance_change" then
      match extractAccount c.expr with
      | none => false
      | some acc =>
        (openMap acc).isNone ||
          (decide (acc ∈ L0) &&
            (alookup (acc, c.since, c.expectedAmount.currency) t10).isSome &&
            seen.any fun d => decide (c.since ≤ d))
     else true) && wfAux openMap L0 t10 seen rest
  | seen, _ :: rest => wfAux openMap L0 t10 seen rest

/-- The sufficient well-formedness condition for totality: the store and tree
initialisations succeed, every snapshot-store account has a node, and the
per-assertion conditions of `wfAux` hold. -/
def wellFormedB (entries : List Directive) : Bool :=
  match t1Init entries, initAccounts entries with
  | .ok t10, .ok L0 =>
    t10.all (fun kv => decide (kv.1.1 ∈ L0)) &&
      wfAux (openMapOf entries) L0 t10 [] entries
  | _, _ => false

/- Concrete directive lists evaluated by the theorems below. -/

/-- Open Assets:B with currencies restricted to G. -/
def exOpen : Directive := .openDir ⟨1, "Assets:B", some ["G"]⟩

/-- A transaction dated 3 posting +1 G to Assets:B. -/
def exTxn : Directive := .txn ⟨3, [⟨"Assets:B", ⟨1, "G"⟩⟩]⟩

/-- A passing ledger: open, one transaction, one correct assertion. -/
def exGood : List Directive :=
  [exOpen, exTxn, .custom ⟨5, "balance_change", true, "Assets:B", ⟨1, "G"⟩, 2⟩]

/-- Two assertions on the same account and currency with different
since-dates (2 and 4): the zip of source line 73 pairs the singleton account
set and singleton currency set with the first date only, so the key
(Assets:B, 4, G) required by the second assertion is never created. -/
def exC1 : List Directive :=
  [exOpen, exTxn,
   .custom ⟨5, "balance_change", true, "Assets:B", ⟨1, "G"⟩, 2⟩,
   .custom ⟨6, "balance_change", true, "Assets:B", ⟨0, "G"⟩, 4⟩]

/-- A balance_change assertion on an account with no Open directive. -/
def cC2 : CustomEntry := ⟨1, "balance_change", true, "Assets:B", ⟨0, "G"⟩, 0⟩

/-- The directive carrying `cC2`. -/
def exC2e : Directive := .custom cC2

/-- The one-directive ledger containing only `exC2e`. -/
def exC2 : List Directive := [exC2e]

/-- A ledger whose assertion holds a difference of
50000000000000001/10^19 = 0.0050000000000000001 from the expected change:
strictly above 1/200 yet strictly below the float tolerance `tolF`. -/
def exC4 : List Directive :=
  [exOpen, .txn ⟨3, [⟨"Assets:B", ⟨50000000000000001 / 10 ^ 19, "G"⟩⟩]⟩,
   .custom ⟨5, "balance_change", true, "Assets:B", ⟨0, "G"⟩, 2⟩]

/-- A balance_change assertion whose expression text contains no account
path matchable by the regex. -/
def exC5bad : List Directive :=
  [.custom ⟨1, "balance_change", false, "hello", ⟨0, "G"⟩, 0⟩]

/-- The no-activity-in-window ledger of the test suite
(test_balance_change_no_transactions_in_interval): an opened account, no
transactions, one assertion expecting a change of 0. -/
def exC8 : List Directive :=
  [exOpen, .custom ⟨3, "balance_change", true, "Assets:B", ⟨0, "G"⟩, 2⟩]

/-- A ledger with accounts Assets:BankA, Assets:BankA:Checking and
Assets:BankAlpha, and one assertion on Assets:BankA. -/
def exC10 : List Directive :=
  [.openDir ⟨1, "Assets:BankA", some ["G"]⟩,
   .openDir ⟨1, "Assets:BankA:Checking", some ["G"]⟩,
   .openDir ⟨1, "Assets:BankAlpha", some ["G"]⟩,
   .custom ⟨5, "balance_change", true, "Assets:BankA", ⟨0, "G"⟩, 2⟩]

/-- A snapshot key used by the concrete replay-state theorems. -/
def k3 : SnapKey := ("Assets:B", 2, "G")

/-- An initial replay state tracking Assets:B with the single unresolved
snapshot key `k3`. -/
def st30 : St := ⟨⟨["Assets:B"], []⟩, [(k3, none)], [], []⟩

/-- A transaction dated 3 (at or after the since-date of `k3`). -/
def t3 : Txn := ⟨3, [⟨"Assets:B", ⟨5, "G"⟩⟩]⟩

/-- A later transaction dated 4. -/
def t4 : Txn := ⟨4, [⟨"Assets:B", ⟨7, "G"⟩⟩]⟩

/-- The state after replaying `t3` from `st30`: snapshot captured at 0 (the
balance before the postings of `t3`), postings applied. -/
def st32 : St := ⟨⟨["Assets:B"], [(("Assets:B", "G"), 5)]⟩, [(k3, some 0)], [], [.txn t3]⟩

/-- The state after further replaying `t4` from `st32`: the balance moved to
12 but the snapshot is still the captured 0. -/
def st33 : St :=
  ⟨⟨["Assets:B"], [(("Assets:B", "G"), 12)]⟩, [(k3, some 0)], [], [.txn t3, .txn t4]⟩

/-- A replay state with a resolved snapshot `(k3, some 0)`, used to evaluate
single assertion steps. -/
def stA : St := ⟨⟨["Assets:B"], []⟩, [(k3, some 0)], [], []⟩

/-- An open map declaring only Assets:B, restricted to currency G. -/
def omA : Account → Option OpenEntry :=
  fun a => if a = "Assets:B" then some ⟨1, "Assets:B", some ["G"]⟩ else none

/-- An assertion in currency U (not among the opened currencies of `omA`)
expecting +7, while the actual change is 0. -/
def cA7 : CustomEntry := ⟨5, "balance_change", true, "Assets:B", ⟨7, "U"⟩, 2⟩

/-- A replay state with the resolved snapshot key of `cA7` (currency U). -/
def stA7 : St := ⟨⟨["Assets:B"], []⟩, [(("Assets:B", 2, "U"), some 0)], [], []⟩

/-- An assertion in currency G expecting 0, matching an actual change of 0. -/
def cA4 : CustomEntry := ⟨5, "balance_change", true, "Assets:B", ⟨0, "G"⟩, 2⟩

/-- The empty replay state. -/
def stE : St := ⟨⟨[], []⟩, [], [], []⟩

/- ===================== Theorems ===================== -/

section Lemmas

/-- Replaying a non-balance_change custom entry only appends it. -/
theorem procEntry_custom_eq (openMap : Account → Option OpenEntry) (st : St)
    (c : CustomEntry) (h : c.ctype = "balance_change") :
    procEntry openMap st (.custom c) = procAssertion openMap st c := by
  simp [procEntry, h]

/-- Unknown-account branch of the assertion evaluator (source lines 122-129):
one error appended, nothing else changed, and in particular the entry is not
appended to the output. -/
theorem procAssertion_unknown (openMap : Account → Option OpenEntry) (st : St)
    (c : CustomEntry) (acc : Account)
    (hx : extractAccount c.expr = some acc) (ho : openMap acc = none) :
    procAssertion openMap st c =
      .ok { st with errors := st.errors ++ [⟨.unknownAccount acc, .custom c⟩] } := by
  simp [procAssertion, hx, ho]

/-- Known-account branch of the assertion evaluator with a resolved snapshot
(source lines 131-167 plus the append of line 178): currency-validation
errors first, then the change check on actual change = subtree balance minus
snapshot. -/
theorem procAssertion_known (openMap : Account → Option OpenEntry) (st : St)
    (c : CustomEntry) (acc : Account) (op : OpenEntry) (q : ℚ)
    (hx : extractAccount c.expr = some acc) (ho : openMap acc = some op)
    (hm : acc ∈ st.tree.accounts)
    (hl : alookup (acc, c.since, c.expectedAmount.currency) st.t1 = some (some q)) :
    procAssertion openMap st c =
      .ok { st with
            errors := st.errors ++ currencyErrs op c
              ++ mismatchErrs acc c
                  (subtreeUnits st.tree acc c.expectedAmount.currency - q),
            output := st.output ++ [.custom c] } := by
  simp [procAssertion, hx, ho, hm, hl]

/-- A successful snapshot update is the pointwise `resolveKV` map. -/
theorem update_ok_inv (d : Date) (tree : RealTree) :
    ∀ t1 t1', update_t1_amounts d tree t1 = .ok t1' →
      t1' = t1.map (resolveKV d tree) := by
  intro t1
  induction t1 with
  | nil =>
    intro t1' h
    simp only [update_t1_amounts] at h
    cases h
    rfl
  | cons kv rest ih =>
    intro t1' h
    obtain ⟨k, v⟩ := kv
    cases v with
    | some q =>
      simp only [update_t1_amounts] at h
      cases hrest : update_t1_amounts d tree rest with
      | error e => rw [hrest] at h; exact absurd h (by simp [Bind.bind, Except.bind])
      | ok rest' =>
        rw [hrest] at h
        simp only [Bind.bind, Except.bind] at h
        cases h
        simp [resolveKV, ih rest' hrest]
    | none =>
      simp only [update_t1_amounts] at h
      by_cases hd : k.2.1 ≤ d
      · rw [if_pos hd] at h
        by_cases hk : k.1 ∈ tree.accounts
        · rw [if_pos hk] at h
          cases hrest : update_t1_amounts d tree rest with
          | error e => rw [hrest] at h; exact absurd h (by simp [Bind.bind, Except.bind])
          | ok rest' =>
            rw [hrest] at h
            simp only [Bind.bind, Except.bind] at h
            cases h
            simp [resolveKV, if_pos hd, ih rest' hrest]
        · rw [if_neg hk] at h
          exact absurd h (by simp)
      · rw [if_neg hd] at h
        cases hrest : update_t1_amounts d tree rest with
        | error e => rw [hrest] at h; exact absurd h (by simp [Bind.bind, Except.bind])
        | ok rest' =>
          rw [hrest] at h
          simp only [Bind.bind, Except.bind] at h
          cases h
          simp [resolveKV, if_neg hd, ih rest' hrest]

/-- The snapshot update succeeds whenever every stored account has a node. -/
theorem update_ok (d : Date) (tree : RealTree) (t1 : List (SnapKey × Option ℚ))
    (h : ∀ kv ∈ t1, kv.1.1 ∈ tree.accounts) :
    update_t1_amounts d tree t1 = .ok (t1.map (resolveKV d tree)) := by
  induction t1 with
  | nil => rfl
  | cons kv rest ih =>
    have hrest := ih fun kv h' => h kv (List.mem_cons_of_mem _ h')
    obtain ⟨k, v⟩ := kv
    cases v with
    | some q => simp [update_t1_amounts, hrest, Bind.bind, Except.bind, resolveKV]
    | none =>
      by_cases hd : k.2.1 ≤ d
      · have hk : k.1 ∈ tree.accounts := h (k, none) (List.mem_cons_self _ _)
        simp [update_t1_amounts, hd, hk, hrest, Bind.bind, Except.bind, resolveKV]
      · simp [update_t1_amounts, hd, hrest, Bind.bind, Except.bind, resolveKV]

/-- The map `resolveKV` preserves the key. -/
theorem resolveKV_fst (d : Date) (tree : RealTree) (kv : SnapKey × Option ℚ) :
    (resolveKV d tree kv).1 = kv.1 := by
  obtain ⟨k, v⟩ := kv
  cases v with
  | some q => rfl
  | none =>
    simp only [resolveKV]
    split <;> rfl

/-- Lookup through a key-preserving pointwise map. -/
theorem alookup_map_resolve (d : Date) (tree : RealTree) (k : SnapKey) :
    ∀ l : List (SnapKey × Option ℚ),
      alookup k (l.map (resolveKV d tree)) =
        (alookup k l).map fun v => (resolveKV d tree (k, v)).2 := by
  intro l
  induction l with
  | nil => rfl
  | cons kv rest ih =>
    obtain ⟨k', v⟩ := kv
    cases v with
    | some q =>
      by_cases hk : k' = k
      · subst hk; simp [alookup, resolveKV]
      · simp [alookup, resolveKV, hk, ih]
    | none =>
      have hres : resolveKV d tree (k', none) =
          (if k'.2.1 ≤ d then (k', some (subtreeUnits tree k'.1 k'.2.2))
           else (k', none)) := rfl
      by_cases hd : k'.2.1 ≤ d
      · rw [if_pos hd] at hres
        rw [List.map_cons, hres]
        by_cases hk : k' = k
        · subst hk
          have h2 : (resolveKV d tree (k', none)).2 =
              some (subtreeUnits tree k'.1 k'.2.2) := by rw [hres]
          simp [alookup, h2]
        · simp [alookup, hk, ih]
      · rw [if_neg hd] at hres
        rw [List.map_cons, hres]
        by_cases hk : k' = k
        · subst hk
          have h2 : (resolveKV d tree (k', none)).2 = none := by rw [hres]
          simp [alookup, h2]
        · simp [alookup, hk, ih]

/-- A resolved snapshot survives a successful update unchanged. -/
theorem update_resolved_persist (d : Date) (tree : RealTree)
    (t1 t1' : List (SnapKey × Option ℚ)) (k : SnapKey) (q : ℚ)
    (h : update_t1_amounts d tree t1 = .ok t1')
    (hl : alookup k t1 = some (some q)) :
    alookup k t1' = some (some q) := by
  rw [update_ok_inv d tree t1 t1' h, alookup_map_resolve, hl]
  rfl

/-- An unresolved snapshot whose since-date is reached is captured at the
subtree balance of the tree passed to the update (the pre-posting tree). -/
theorem update_captures (d : Date) (tree : RealTree)
    (t1 t1' : List (SnapKey × Option ℚ)) (k : SnapKey)
    (h : update_t1_amounts d tree t1 = .ok t1')
    (hl : alookup k t1 = some none) (hd : k.2.1 ≤ d) :
    alookup k t1' = some (some (subtreeUnits tree k.1 k.2.2)) := by
  have hres : resolveKV d tree (k, none) =
      (k, some (subtreeUnits tree k.1 k.2.2)) := by
    simp [resolveKV, hd]
  rw [update_ok_inv d tree t1 t1' h, alookup_map_resolve, hl]
  simp [hres]

/-- An unresolved snapshot stays unresolved through an update dated before
its since-date. -/
theorem update_skips (d : Date) (tree : RealTree)
    (t1 t1' : List (SnapKey × Option ℚ)) (k : SnapKey)
    (h : update_t1_amounts d tree t1 = .ok t1')
    (hl : alookup k t1 = some none) (hd : ¬ k.2.1 ≤ d) :
    alookup k t1' = some none := by
  have hres : resolveKV d tree (k, none) = (k, none) := by
    simp [resolveKV, hd]
  rw [update_ok_inv d tree t1 t1' h, alookup_map_resolve, hl]
  simp [hres]

/-- A successful update preserves the key list of the store. -/
theorem update_keys (d : Date) (tree : RealTree)
    (t1 t1' : List (SnapKey × Option ℚ))
    (h : update_t1_amounts d tree t1 = .ok t1') :
    t1'.map Prod.fst = t1.map Prod.fst := by
  rw [update_ok_inv d tree t1 t1' h, List.map_map]
  exact List.map_congr_left fun kv _ => resolveKV_fst d tree kv

/-- Inversion of a successful assertion step: the tree and store are
untouched, the account was extracted, and the output either stays (unknown
account) or receives the entry (known account). -/
theorem procAssertion_inv (openMap : Account → Option OpenEntry) (st : St)
    (c : CustomEntry) (st' : St)
    (h : procAssertion openMap st c = .ok st') :
    st'.tree = st.tree ∧ st'.t1 = st.t1 ∧
    ∃ acc, extractAccount c.expr = some acc ∧
      ((openMap acc = none ∧ st'.output = st.output) ∨
       ((openMap acc).isSome = true ∧ st'.output = st.output ++ [.custom c])) := by
  unfold procAssertion at h
  split at h
  · exact absurd h (by simp)
  · rename_i acc hx
    split at h
    · rename_i ho
      cases h
      exact ⟨rfl, rfl, acc, hx, .inl ⟨ho, rfl⟩⟩
    · rename_i op ho
      split at h
      · split at h
        · exact absurd h (by simp)
        · exact absurd h (by simp)
        · rename_i q hl
          cases h
          exact ⟨rfl, rfl, acc, hx, .inr ⟨by simp [ho], rfl⟩⟩
      · exact absurd h (by simp)

/-- The replay of one directive appends it to the output except for
unknown-account assertions, which are dropped. -/
theorem procEntry_output (openMap : Account → Option OpenEntry) (st : St)
    (e : Directive) (st' : St)
    (h : procEntry openMap st e = .ok st') :
    st'.output = st.output ++ (if keptEntry openMap e then [e] else []) := by
  cases e with
  | txn t =>
    simp only [procEntry] at h
    cases hu : update_t1_amounts t.date st.tree st.t1 with
    | error err => rw [hu] at h; exact absurd h (by simp [Bind.bind, Except.bind])
    | ok t1' =>
      rw [hu] at h
      simp only [Bind.bind, Except.bind] at h
      cases h
      simp [keptEntry]
  | custom c =>
    by_cases hc : c.ctype = "balance_change"
    · rw [procEntry_custom_eq openMap st c hc] at h
      obtain ⟨-, -, acc, hx, hcase⟩ := procAssertion_inv openMap st c st' h
      rcases hcase with ⟨ho, hout⟩ | ⟨ho, hout⟩
      · simp [keptEntry, hc, hx, ho, hout]
      · simp [keptEntry, hc, hx, ho, hout]
    · simp only [procEntry, if_neg hc] at h
      cases h
      simp [keptEntry, hc]
  | openDir o =>
    simp only [procEntry] at h
    cases h
    simp [keptEntry]
  | other i =>
    simp only [procEntry] at h
    cases h
    simp [keptEntry]

/-- Unfolding: replaying the empty list returns the state. -/
theorem runFrom_nil (openMap : Account → Option OpenEntry) (st : St) :
    runFrom openMap st [] = .ok st := rfl

/-- Unfolding: replaying a cons runs the head and continues. -/
theorem runFrom_cons (openMap : Account → Option OpenEntry) (st : St)
    (e : Directive) (l : List Directive) :
    runFrom openMap st (e :: l) =
      (procEntry openMap st e) >>= fun st1 => runFrom openMap st1 l := rfl

/-- A resolved snapshot survives one replay step. -/
theorem procEntry_resolved_persist (openMap : Account → Option OpenEntry)
    (st : St) (e : Directive) (st' : St) (k : SnapKey) (q : ℚ)
    (h : procEntry openMap st e = .ok st')
    (hl : alookup k st.t1 = some (some q)) :
    alookup k st'.t1 = some (some q) := by
  cases e with
  | txn t =>
    simp only [procEntry] at h
    cases hu : update_t1_amounts t.date st.tree st.t1 with
    | error err => rw [hu] at h; exact absurd h (by simp [Bind.bind, Except.bind])
    | ok t1' =>
      rw [hu] at h
      simp only [Bind.bind, Except.bind] at h
      cases h
      exact update_resolved_persist t.date st.tree st.t1 t1' k q hu hl
  | custom c =>
    by_cases hc : c.ctype = "balance_change"
    · rw [procEntry_custom_eq openMap st c hc] at h
      obtain ⟨-, ht1, -⟩ := procAssertion_inv openMap st c st' h
      rw [ht1]; exact hl
    · simp only [procEntry, if_neg hc] at h
      cases h; exact hl
  | openDir o =>
    simp only [procEntry] at h
    cases h; exact hl
  | other i =>
    simp only [procEntry] at h
    cases h; exact hl

/-- An unresolved snapshot survives one replay step of a directive that does
not qualify for it (not a transaction at or after the since-date). -/
theorem procEntry_none_persist (openMap : Account → Option OpenEntry)
    (st : St) (e : Directive) (st' : St) (k : SnapKey)
    (h : procEntry openMap st e = .ok st')
    (hl : alookup k st.t1 = some none)
    (hq : qualifiesB e k.2.1 = false) :
    alookup k st'.t1 = some none := by
  cases e with
  | txn t =>
    simp only [procEntry] at h
    cases hu : update_t1_amounts t.date st.tree st.t1 with
    | error err => rw [hu] at h; exact absurd h (by simp [Bind.bind, Except.bind])
    | ok t1' =>
      rw [hu] at h
      simp only [Bind.bind, Except.bind] at h
      cases h
      have hd : ¬ k.2.1 ≤ t.date := by
        simpa [qualifiesB] using hq
      exact update_skips t.date st.tree st.t1 t1' k hu hl hd
  | custom c =>
    by_cases hc : c.ctype = "balance_change"
    · rw [procEntry_custom_eq openMap st c hc] at h
      obtain ⟨-, ht1, -⟩ := procAssertion_inv openMap st c st' h
      rw [ht1]; exact hl
    · simp only [procEntry, if_neg hc] at h
      cases h; exact hl
  | openDir o =>
    simp only [procEntry] at h
    cases h; exact hl
  | other i =>
    simp only [procEntry] at h
    cases h; exact hl

/-- A qualifying transaction captures an unresolved snapshot at the subtree
balance of the state before its own postings are applied. -/
theorem procEntry_txn_captures (openMap : Account → Option OpenEntry)
    (st : St) (t : Txn) (st' : St) (k : SnapKey)
    (h : procEntry openMap st (.txn t) = .ok st')
    (hl : alookup k st.t1 = some none) (hd : k.2.1 ≤ t.date) :
    alookup k st'.t1 = some (some (subtreeUnits st.tree k.1 k.2.2)) := by
  simp only [procEntry] at h
  cases hu : update_t1_amounts t.date st.tree st.t1 with
  | error err => rw [hu] at h; exact absurd h (by simp [Bind.bind, Except.bind])
  | ok t1' =>
    rw [hu] at h
    simp only [Bind.bind, Except.bind] at h
    cases h
    exact update_captures t.date st.tree st.t1 t1' k hu hl hd

/-- A resolved snapshot survives a successful replay of any directive list. -/
theorem runFrom_resolved_persist (openMap : Account → Option OpenEntry) :
    ∀ (l : List Directive) (st st' : St) (k : SnapKey) (q : ℚ),
      runFrom openMap st l = .ok st' →
      alookup k st.t1 = some (some q) → alookup k st'.t1 = some (some q) := by
  intro l
  induction l with
  | nil =>
    intro st st' k q h hl
    rw [runFrom_nil] at h
    cases h; exact hl
  | cons e rest ih =>
    intro st st' k q h hl
    rw [runFrom_cons] at h
    cases hstep : procEntry openMap st e with
    | error err => rw [hstep] at h; exact absurd h (by simp [Bind.bind, Except.bind])
    | ok st1 =>
      rw [hstep] at h
      simp only [Bind.bind, Except.bind] at h
      exact ih st1 st' k q h
        (procEntry_resolved_persist openMap st e st1 k q hstep hl)

/-- An unresolved snapshot survives a successful replay of a list containing
no qualifying transaction. -/
theorem runFrom_none_persist (openMap : Account → Option OpenEntry) :
    ∀ (l : List Directive) (st st' : St) (k : SnapKey),
      runFrom openMap st l = .ok st' →
      alookup k st.t1 = some none →
      (∀ e ∈ l, qualifiesB e k.2.1 = false) →
      alookup k st'.t1 = some none := by
  intro l
  induction l with
  | nil =>
    intro st st' k h hl _
    rw [runFrom_nil] at h
    cases h; exact hl
  | cons e rest ih =>
    intro st st' k h hl hq
    rw [runFrom_cons] at h
    cases hstep : procEntry openMap st e with
    | error err => rw [hstep] at h; exact absurd h (by simp [Bind.bind, Except.bind])
    | ok st1 =>
      rw [hstep] at h
      simp only [Bind.bind, Except.bind] at h
      exact ih st1 st' k h
        (procEntry_none_persist openMap st e st1 k hstep hl
          (hq e (List.mem_cons_self _ _)))
        fun e' he' => hq e' (List.mem_cons_of_mem _ he')

/-- The output of a successful replay is the input filtered by `keptEntry`. -/
theorem runFrom_output (openMap : Account → Option OpenEntry) :
    ∀ (l : List Directive) (st st' : St),
      runFrom openMap st l = .ok st' →
      st'.output = st.output ++ l.filter (keptEntry openMap) := by
  intro l
  induction l with
  | nil =>
    intro st st' h
    rw [runFrom_nil] at h
    cases h; simp
  | cons e rest ih =>
    intro st st' h
    rw [runFrom_cons] at h
    cases hstep : procEntry openMap st e with
    | error err => rw [hstep] at h; exact absurd h (by simp [Bind.bind, Except.bind])
    | ok st1 =>
      rw [hstep] at h
      simp only [Bind.bind, Except.bind] at h
      rw [ih st1 st' h, procEntry_output openMap st e st1 hstep]
      by_cases hk : keptEntry openMap e
      · simp [hk, List.filter_cons]
      · simp [hk, List.filter_cons]

/-- Inversion of a successful full run: both initialisations succeeded and
the replay reached the returned output and errors. -/
theorem balance_change_ok_inv (entries : List Directive)
    (out : List Directive) (errs : List BErr)
    (h : balance_change entries = .ok (out, errs)) :
    ∃ t1 laccs st, t1Init entries = .ok t1 ∧ initAccounts entries = .ok laccs ∧
      runFrom (openMapOf entries) ⟨⟨laccs, []⟩, t1, [], []⟩ entries = .ok st ∧
      out = st.output ∧ errs = st.errors := by
  unfold balance_change at h
  cases h1 : t1Init entries with
  | error e => rw [h1] at h; exact absurd h (by simp [Bind.bind, Except.bind])
  | ok t1 =>
    rw [h1] at h
    simp only [Bind.bind, Except.bind] at h
    cases h2 : initAccounts entries with
    | error e => rw [h2] at h; exact absurd h (by simp [Bind.bind, Except.bind])
    | ok laccs =>
      rw [h2] at h
      simp only [Bind.bind, Except.bind] at h
      cases h3 : runFrom (openMapOf entries) ⟨⟨laccs, []⟩, t1, [], []⟩ entries with
      | error e => rw [h3] at h; exact absurd h (by simp [Bind.bind, Except.bind])
      | ok st =>
        rw [h3] at h
        simp only [Bind.bind, Except.bind] at h
        cases h
        exact ⟨t1, laccs, st, rfl, rfl, h3, rfl, rfl⟩

/-- Membership in `insertNew`. -/
theorem insertNew_mem (l : List Account) (y x : Account) :
    x ∈ insertNew l y ↔ x ∈ l ∨ x = y := by
  unfold insertNew
  by_cases hy : y ∈ l
  · rw [if_pos hy]
    constructor
    · exact Or.inl
    · rintro (h | rfl)
      · exact h
      · exact hy
  · rw [if_neg hy]
    simp [List.mem_append]

/-- Membership after folding `insertNew` over a list. -/
theorem foldl_insertNew_mem :
    ∀ (xs init : List Account) (x : Account),
      x ∈ xs.foldl insertNew init ↔ x ∈ init ∨ x ∈ xs := by
  intro xs
  induction xs with
  | nil => simp
  | cons y rest ih =>
    intro init x
    simp only [List.foldl_cons]
    rw [ih, insertNew_mem]
    simp [List.mem_cons]
    tauto

/-- Membership in the node set after one `get_or_create`. -/
theorem getOrCreateAccs_mem (l : List Account) (a x : Account) :
    x ∈ getOrCreateAccs l a ↔ x ∈ l ∨ x ∈ nodePathsOf a :=
  foldl_insertNew_mem (nodePathsOf a) l x

/-- Membership in the node set after pre-creating a list of accounts. -/
theorem foldl_getOrCreate_mem :
    ∀ (bs init : List Account) (x : Account),
      x ∈ bs.foldl getOrCreateAccs init ↔
        x ∈ init ∨ ∃ b ∈ bs, x ∈ nodePathsOf b := by
  intro bs
  induction bs with
  | nil => simp
  | cons b rest ih =>
    intro init x
    simp only [List.foldl_cons]
    rw [ih, getOrCreateAccs_mem]
    simp [List.mem_cons]
    tauto

/-- Inversion of a successful node pre-creation. -/
theorem initAccounts_inv (entries : List Directive) (L : List Account)
    (h : initAccounts entries = .ok L) :
    ∃ accs, assertedAccountsE entries = .ok accs ∧
      L = ((get_accounts entries).filter
            (fun a => a ∈ accs || accs.any fun b => parentMatch b a)).foldl
            getOrCreateAccs [] := by
  unfold initAccounts at h
  cases ha : assertedAccountsE entries with
  | error e => rw [ha] at h; exact absurd h (by simp [Bind.bind, Except.bind])
  | ok accs =>
    rw [ha] at h
    simp only [Bind.bind, Except.bind] at h
    cases h
    exact ⟨accs, rfl, rfl⟩

/-- A posting never changes the node set. -/
theorem applyPosting_accounts (tr : RealTree) (p : Posting) :
    (applyPosting tr p).accounts = tr.accounts := by
  unfold applyPosting
  split <;> rfl

/-- A list of postings never changes the node set. -/
theorem foldl_applyPosting_accounts :
    ∀ (ps : List Posting) (tr : RealTree),
      (ps.foldl applyPosting tr).accounts = tr.accounts := by
  intro ps
  induction ps with
  | nil => intro tr; rfl
  | cons p rest ih =>
    intro tr
    rw [List.foldl_cons, ih, applyPosting_accounts]

/-- A key of the association list has a lookup value. -/
theorem alookup_of_mem_keys [DecidableEq κ] (k : κ) :
    ∀ (l : List (κ × β)), k ∈ l.map Prod.fst → ∃ v, alookup k l = some v := by
  intro l
  induction l with
  | nil => intro h; simp at h
  | cons kv rest ih =>
    intro h
    obtain ⟨k1, v1⟩ := kv
    by_cases hk : k1 = k
    · exact ⟨v1, by simp [alookup, hk]⟩
    · rw [List.map_cons, List.mem_cons] at h
      rcases h with h | h
      · exact absurd h.symm hk
      · obtain ⟨v, hv⟩ := ih h
        refine ⟨v, ?_⟩
        simp only [alookup]
        rw [if_neg hk]
        exact hv

/-- A successful lookup means the key is present. -/
theorem alookup_mem_keys [DecidableEq κ] (k : κ) :
    ∀ (l : List (κ × β)) (v : β), alookup k l = some v → k ∈ l.map Prod.fst := by
  intro l
  induction l with
  | nil => intro v h; simp [alookup] at h
  | cons kv rest ih =>
    intro v h
    obtain ⟨k1, v1⟩ := kv
    simp only [alookup] at h
    by_cases hk : k1 = k
    · simp [List.map_cons, hk]
    · rw [if_neg hk] at h
      exact List.mem_cons_of_mem _ (ih v h)

/-- The replay loop cannot crash along a list accepted by `wfAux`, given the
standing invariants: the node set is `L0`, the store keys are those of
`t10`, every store account has a node, and every key whose since-date was
reached by a replayed transaction is resolved. -/
theorem runFrom_ok_of_wf (openMap : Account → Option OpenEntry)
    (L0 : List Account) (t10 : List (SnapKey × Option ℚ))
    (hall : ∀ kv ∈ t10, kv.1.1 ∈ L0) :
    ∀ (l : List Directive) (seen : List Date) (st : St),
      st.tree.accounts = L0 →
      st.t1.map Prod.fst = t10.map Prod.fst →
      (∀ k : SnapKey, k ∈ t10.map Prod.fst → (∃ d ∈ seen, k.2.1 ≤ d) →
        ∃ q, alookup k st.t1 = some (some q)) →
      wfAux openMap L0 t10 seen l = true →
      ∃ st', runFrom openMap st l = .ok st' := by
  intro l
  induction l with
  | nil =>
    intro seen st _ _ _ _
    exact ⟨st, rfl⟩
  | cons e rest ih =>
    intro seen st hacc hkeys hres hwf
    cases e with
    | txn t =>
      simp only [wfAux] at hwf
      have hnode : ∀ kv ∈ st.t1, kv.1.1 ∈ st.tree.accounts := by
        intro kv hkv
        have h1 : kv.1 ∈ t10.map Prod.fst := by
          rw [← hkeys]
          exact List.mem_map_of_mem _ hkv
        obtain ⟨kv', hkv', heq⟩ := List.mem_map.mp h1
        rw [hacc, ← heq]
        exact hall kv' hkv'
      have hupd := update_ok t.date st.tree st.t1 hnode
      have hpe : procEntry openMap st (.txn t) = .ok
          { st with
            t1 := st.t1.map (resolveKV t.date st.tree),
            tree := t.postings.foldl applyPosting st.tree,
            output := st.output ++ [.txn t] } := by
        simp [procEntry, hupd, Bind.bind, Except.bind]
      rw [runFrom_cons, hpe]
      simp only [Bind.bind, Except.bind]
      apply ih (t.date :: seen) _ ?_ ?_ ?_ hwf
      · show (t.postings.foldl applyPosting st.tree).accounts = L0
        rw [foldl_applyPosting_accounts]
        exact hacc
      · show (st.t1.map (resolveKV t.date st.tree)).map Prod.fst = t10.map Prod.fst
        rw [update_keys t.date st.tree st.t1 _ hupd]
        exact hkeys
      · intro k hk hd
        obtain ⟨d, hdm, hled⟩ := hd
        rcases List.mem_cons.mp hdm with rfl | hd'
        · obtain ⟨v, hv⟩ := alookup_of_mem_keys k st.t1 (by rw [hkeys]; exact hk)
          cases v with
          | some q =>
            exact ⟨q, update_resolved_persist t.date st.tree st.t1 _ k q hupd hv⟩
          | none =>
            exact ⟨_, update_captures t.date st.tree st.t1 _ k hupd hv hled⟩
        · obtain ⟨q, hq⟩ := hres k hk ⟨d, hd', hled⟩
          exact ⟨q, update_resolved_persist t.date st.tree st.t1 _ k q hupd hq⟩
    | custom c =>
      by_cases hc : c.ctype = "balance_change"
      · simp only [wfAux, hc, if_true, Bool.and_eq_true] at hwf
        obtain ⟨hcur, hwf'⟩ := hwf
        cases hx : extractAccount c.expr with
        | none =>
          rw [hx] at hcur
          simp at hcur
        | some acc =>
          simp only [hx] at hcur
          cases ho : openMap acc with
          | none =>
            rw [runFrom_cons, procEntry_custom_eq openMap st c hc,
              procAssertion_unknown openMap st c acc hx ho]
            simp only [Bind.bind, Except.bind]
            exact ih seen _ hacc hkeys hres hwf'
          | some op =>
            simp only [ho, Option.isNone_some, Bool.false_or, Bool.and_eq_true,
              decide_eq_true_eq, Option.isSome_iff_exists, List.any_eq_true] at hcur
            obtain ⟨⟨hmem, v, hv⟩, d, hdm, hled⟩ := hcur
            have hkmem := alookup_mem_keys _ t10 v hv
            obtain ⟨q, hq⟩ := hres _ hkmem ⟨d, hdm, hled⟩
            rw [runFrom_cons, procEntry_custom_eq openMap st c hc,
              procAssertion_known openMap st c acc op q hx ho
                (by rw [hacc]; exact hmem) hq]
            simp only [Bind.bind, Except.bind]
            exact ih seen _ hacc hkeys hres hwf'
      · simp only [wfAux, hc, if_false, Bool.true_and] at hwf
        rw [runFrom_cons]
        have hpe : procEntry openMap st (.custom c) =
            .ok { st with output := st.output ++ [.custom c] } := by
          simp [procEntry, hc]
        rw [hpe]
        simp only [Bind.bind, Except.bind]
        exact ih seen _ hacc hkeys hres hwf
    | openDir o =>
      simp only [wfAux] at hwf
      rw [runFrom_cons]
      have hpe : procEntry openMap st (.openDir o) =
          .ok { st with output := st.output ++ [.openDir o] } := rfl
      rw [hpe]
      simp only [Bind.bind, Except.bind]
      exact ih seen _ hacc hkeys hres hwf
    | other i =>
      simp only [wfAux] at hwf
      rw [runFrom_cons]
      have hpe : procEntry openMap st (.other i) =
          .ok { st with output := st.output ++ [.other i] } := rfl
      rw [hpe]
      simp only [Bind.bind, Except.bind]
      exact ih seen _ hacc hkeys hres hwf

end Lemmas

set_option maxRecDepth 100000

/-- Claim C6 (confirmed): replaying a change-assertion whose account has no
Open directive appends exactly one error and leaves the state otherwise
unchanged — so no ChangeMismatch is recorded for that assertion, all
remaining checks are skipped, and the step returns normally (processing
continues with the next directive). The message is the exact
unknown-account text carrying the account path. -/
theorem c6_unknown_account (openMap : Account → Option OpenEntry) (st : St)
    (c : CustomEntry) (acc : Account)
    (hc : c.ctype = "balance_change")
    (hx : extractAccount c.expr = some acc) (ho : openMap acc = none) :
    procEntry openMap st (.custom c) =
      .ok { st with errors := st.errors ++ [⟨.unknownAccount acc, .custom c⟩] } ∧
    ∀ aS nS, renderMsg aS nS (.unknownAccount acc) =
      "Invalid reference to unknown account \x27" ++ acc ++ "\x27" := by
  refine ⟨?_, fun aS nS => rfl⟩
  rw [procEntry_custom_eq openMap st c hc]
  exact procAssertion_unknown openMap st c acc hx ho

/-- Witness for C6 at a concrete unknown-account assertion. -/
theorem c6_witness :
    procEntry (fun _ => none) stE (.custom cC2) =
      .ok { stE with errors := stE.errors ++ [⟨.unknownAccount "Assets:B", .custom cC2⟩] } ∧
    ∀ aS nS, renderMsg aS nS (.unknownAccount "Assets:B") =
      "Invalid reference to unknown account \x27" ++ "Assets:B" ++ "\x27" :=
  c6_unknown_account (fun _ => none) stE cC2 "Assets:B" rfl rfl rfl

/-- Claim C7 (confirmed): an assertion on a known account whose Open
directive restricts currencies to a non-empty list not containing the
assertion currency records the invalid-currency error, evaluation continues
into the change check, and when that check also fails the step appends
exactly two errors for this directive, currency-validation first,
change-mismatch second. -/
theorem c7_currency_error_then_mismatch (openMap : Account → Option OpenEntry)
    (st : St) (c : CustomEntry) (acc : Account) (op : OpenEntry)
    (cs : List Currency) (q : ℚ)
    (hc : c.ctype = "balance_change")
    (hx : extractAccount c.expr = some acc) (ho : openMap acc = some op)
    (hcs : op.currencies = some cs) (hne : cs ≠ [])
    (hni : c.expectedAmount.currency ∉ cs)
    (hm : acc ∈ st.tree.accounts)
    (hl : alookup (acc, c.since, c.expectedAmount.currency) st.t1 = some (some q))
    (hd : tolF < |subtreeUnits st.tree acc c.expectedAmount.currency - q -
            c.expectedAmount.number|) :
    procEntry openMap st (.custom c) =
      .ok { st with
            errors := st.errors ++
              [⟨.invalidCurrency c.expectedAmount.currency, .custom c⟩,
               ⟨.changeMismatch acc c.expectedAmount
                  ⟨subtreeUnits st.tree acc c.expectedAmount.currency - q,
                   c.expectedAmount.currency⟩
                  |subtreeUnits st.tree acc c.expectedAmount.currency - q -
                    c.expectedAmount.number|
                  (decide (0 < subtreeUnits st.tree acc c.expectedAmount.currency - q -
                    c.expectedAmount.number)),
                .custom c⟩],
            output := st.output ++ [.custom c] } := by
  rw [procEntry_custom_eq openMap st c hc,
      procAssertion_known openMap st c acc op q hx ho hm hl]
  have h1 : currencyErrs op c =
      [⟨.invalidCurrency c.expectedAmount.currency, .custom c⟩] := by
    simp [currencyErrs, hcs, hne, hni]
  have h2 : mismatchErrs acc c (subtreeUnits st.tree acc c.expectedAmount.currency - q) =
      [⟨.changeMismatch acc c.expectedAmount
          ⟨subtreeUnits st.tree acc c.expectedAmount.currency - q,
           c.expectedAmount.currency⟩
          |subtreeUnits st.tree acc c.expectedAmount.currency - q -
            c.expectedAmount.number|
          (decide (0 < subtreeUnits st.tree acc c.expectedAmount.currency - q -
            c.expectedAmount.number)),
        .custom c⟩] := by
    simp only [mismatchErrs, if_pos hd]
  rw [h1, h2]
  simp

/-- Witness for C7: currency U is not among the opened currencies [G] and the
expected change 7 differs from the actual change 0, so the step appends the
two errors in order. -/
theorem c7_witness :
    procEntry omA stA7 (.custom cA7) =
      .ok { stA7 with
            errors := stA7.errors ++
              [⟨.invalidCurrency cA7.expectedAmount.currency, .custom cA7⟩,
               ⟨.changeMismatch "Assets:B" cA7.expectedAmount
                  ⟨subtreeUnits stA7.tree "Assets:B" cA7.expectedAmount.currency - 0,
                   cA7.expectedAmount.currency⟩
                  |subtreeUnits stA7.tree "Assets:B" cA7.expectedAmount.currency - 0 -
                    cA7.expectedAmount.number|
                  (decide (0 < subtreeUnits stA7.tree "Assets:B" cA7.expectedAmount.currency - 0 -
                    cA7.expectedAmount.number)),
                .custom cA7⟩],
            output := stA7.output ++ [.custom cA7] } :=
  c7_currency_error_then_mismatch omA stA7 cA7 "Assets:B" ⟨1, "Assets:B", some ["G"]⟩
    ["G"] 0 rfl rfl (by with_unfolding_all rfl) rfl (by decide) (by decide)
    (by decide) (by with_unfolding_all rfl) (by with_unfolding_all rfl)

/-- Claim C4 (corrected): for a known-account assertion with a resolved
snapshot, a ChangeMismatch error is appended (after any currency-validation
error) precisely when the absolute difference between the actual change
(subtree balance in the assertion currency minus the snapshot value) and the
expected change exceeds `tolF` — the exact rational value of the Python
float literal 0.005, slightly above 1/200 — with direction too much exactly
when the signed difference is positive; the message follows the exact source
template. The claim states the threshold as the real number 0.005; see the
counterexample for the gap. -/
theorem c4_change_check (openMap : Account → Option OpenEntry) (st : St)
    (c : CustomEntry) (acc : Account) (op : OpenEntry) (q : ℚ)
    (hc : c.ctype = "balance_change")
    (hx : extractAccount c.expr = some acc) (ho : openMap acc = some op)
    (hm : acc ∈ st.tree.accounts)
    (hl : alookup (acc, c.since, c.expectedAmount.currency) st.t1 = some (some q)) :
    procEntry openMap st (.custom c) =
      .ok { st with
            errors := st.errors ++ currencyErrs op c ++
              (if tolF < |subtreeUnits st.tree acc c.expectedAmount.currency - q -
                  c.expectedAmount.number| then
                [⟨.changeMismatch acc c.expectedAmount
                    ⟨subtreeUnits st.tree acc c.expectedAmount.currency - q,
                     c.expectedAmount.currency⟩
                    |subtreeUnits st.tree acc c.expectedAmount.currency - q -
                      c.expectedAmount.number|
                    (decide (0 < subtreeUnits st.tree acc c.expectedAmount.currency - q -
                      c.expectedAmount.number)), .custom c⟩]
              else []),
            output := st.output ++ [.custom c] } ∧
    (∀ aS nS E A d (tm : Bool), renderMsg aS nS (.changeMismatch acc E A d tm) =
      "Balance change check failed for \x27" ++ acc ++ "\x27: expected a change of "
        ++ aS E ++ " != actual change " ++ aS A ++ " (" ++ nS d ++ " "
        ++ (if tm then "too much" else "too little") ++ ")") := by
  refine ⟨?_, fun aS nS E A d tm => rfl⟩
  rw [procEntry_custom_eq openMap st c hc,
      procAssertion_known openMap st c acc op q hx ho hm hl]
  simp only [mismatchErrs]

/-- Witness for the amended C4 at a passing assertion (difference 0, below
the tolerance, so no mismatch error is appended). -/
theorem c4_witness :
    procEntry omA stA (.custom cA4) =
      .ok { stA with
            errors := stA.errors ++ currencyErrs ⟨1, "Assets:B", some ["G"]⟩ cA4 ++
              (if tolF < |subtreeUnits stA.tree "Assets:B" cA4.expectedAmount.currency - 0 -
                  cA4.expectedAmount.number| then
                [⟨.changeMismatch "Assets:B" cA4.expectedAmount
                    ⟨subtreeUnits stA.tree "Assets:B" cA4.expectedAmount.currency - 0,
                     cA4.expectedAmount.currency⟩
                    |subtreeUnits stA.tree "Assets:B" cA4.expectedAmount.currency - 0 -
                      cA4.expectedAmount.number|
                    (decide (0 < subtreeUnits stA.tree "Assets:B" cA4.expectedAmount.currency - 0 -
                      cA4.expectedAmount.number)), .custom cA4⟩]
              else []),
            output := stA.output ++ [.custom cA4] } ∧
    (∀ aS nS E A d (tm : Bool), renderMsg aS nS (.changeMismatch "Assets:B" E A d tm) =
      "Balance change check failed for \x27" ++ "Assets:B" ++ "\x27: expected a change of "
        ++ aS E ++ " != actual change " ++ aS A ++ " (" ++ nS d ++ " "
        ++ (if tm then "too much" else "too little") ++ ")") :=
  c4_change_check omA stA cA4 "Assets:B" ⟨1, "Assets:B", some ["G"]⟩ 0
    rfl rfl (by with_unfolding_all rfl) (by decide) (by with_unfolding_all rfl)

/-- Claim C1 (code bug): source line 73 zips the deduplicated set of
asserted accounts and the deduplicated set of asserted currencies
positionally against the per-assertion list of since-dates, so with two
assertions on the same account and currency but since-dates 2 and 4 the
store receives only the key (Assets:B, 2, G); the second assertion finds its
own triple (Assets:B, 4, G) missing and the lookup of line 149 raises
KeyError, aborting the call. -/
theorem c1_eval_missing_snapshot_key :
    balance_change exC1 = .error (.missingSnapshotKey ("Assets:B", 4, "G")) := by
  with_unfolding_all rfl

/-- Counterexample to C2: the input contains the unknown-account assertion
`exC2e`, but the returned output list is empty — the `continue` of source
line 129 skips the append of line 178, deleting the directive from the
output. -/
theorem c2_counterexample :
    balance_change exC2 = .ok ([], [⟨.unknownAccount "Assets:B", exC2e⟩]) ∧
    exC2e ∈ exC2 :=
  ⟨by with_unfolding_all rfl, by simp [exC2]⟩

/-- Counterexample to C4: the assertion of `exC4` differs from the actual
change by 50000000000000001/10^19, strictly more than 0.005, yet the run
records no error, because the source compares the Decimal difference against
the Python float 0.005, whose exact value `tolF` is slightly above 1/200. -/
theorem c4_counterexample :
    balance_change exC4 = .ok (exC4, []) ∧
    (1 / 200 : ℚ) < 50000000000000001 / 10 ^ 19 ∧
    (50000000000000001 / 10 ^ 19 : ℚ) < tolF :=
  ⟨by with_unfolding_all rfl,
   of_decide_eq_true (by with_unfolding_all rfl),
   of_decide_eq_true (by with_unfolding_all rfl)⟩

/-- Counterexample to C5: a single assertion whose expression text embeds no
account path makes `re.match(...).group(0)` raise AttributeError (source
line 36), aborting the whole pass instead of returning output and errors. -/
theorem c5_counterexample :
    balance_change exC5bad = .error (.regexFailure "hello") := by
  with_unfolding_all rfl

/-- Claim C8 (code bug): on the no-activity-in-window ledger of the test
suite the snapshot is never resolved and remains the string sentinel NaN;
the subtraction of source line 152 then raises AttributeError, aborting the
call, while the test (and the claim) require a normal return with 0 errors. -/
theorem c8_eval_nan_crash :
    balance_change exC8 = .error (.nanSubtraction ("Assets:B", 2, "G")) := by
  with_unfolding_all rfl

/-- Counterexample to C9: the first run on `exC2` returns an empty output
(the unknown-account assertion is dropped) and one error; rerunning the
transform on that output yields no errors, so the two runs do not have the
same error set. -/
theorem c9_counterexample :
    balance_change exC2 = .ok ([], [⟨.unknownAccount "Assets:B", exC2e⟩]) ∧
    balance_change [] = .ok ([], []) ∧
    ([⟨.unknownAccount "Assets:B", exC2e⟩] : List BErr) ≠ [] :=
  ⟨by with_unfolding_all rfl, by with_unfolding_all rfl, by simp⟩


/-- Claim C2 (corrected): the output of a successful run is the input list
filtered by `keptEntry` — every directive appears unchanged, in input order,
EXCEPT change-assertions whose account has no Open directive, which are
dropped (the `continue` of source line 129 skips the append of line 178).
The counterexample exhibits the dropped directive. -/
theorem c2_output_is_filtered (entries : List Directive)
    (out : List Directive) (errs : List BErr)
    (h : balance_change entries = .ok (out, errs)) :
    out = entries.filter (keptEntry (openMapOf entries)) := by
  obtain ⟨t1, laccs, st, -, -, h3, hout, -⟩ :=
    balance_change_ok_inv entries out errs h
  rw [hout, runFrom_output (openMapOf entries) entries _ st h3]
  rfl

/-- Witness for the amended C2 at the unknown-account ledger: the run
succeeds with an empty output, which equals the kept-filter of the input. -/
theorem c2_witness :
    ([] : List Directive) = exC2.filter (keptEntry (openMapOf exC2)) :=
  c2_output_is_filtered exC2 [] [⟨.unknownAccount "Assets:B", exC2e⟩]
    (by with_unfolding_all rfl)

/-- Claim C3 (confirmed): a snapshot key of the store is still unresolved
after a prefix containing no qualifying transaction, is captured while
replaying the first transaction dated at or after its since-date — at the
subtree balance of the state before that transaction applies its own
postings — and keeps exactly that value through any further replay. -/
theorem c3_snapshot_captured_once (openMap : Account → Option OpenEntry)
    (st0 st1 st2 st3 : St) (l1 l2 : List Directive) (t : Txn) (k : SnapKey)
    (h0 : alookup k st0.t1 = some none)
    (h1 : runFrom openMap st0 l1 = .ok st1)
    (hq : ∀ e ∈ l1, qualifiesB e k.2.1 = false)
    (ht : k.2.1 ≤ t.date)
    (h2 : procEntry openMap st1 (.txn t) = .ok st2)
    (h3 : runFrom openMap st2 l2 = .ok st3) :
    alookup k st1.t1 = some none ∧
    alookup k st2.t1 = some (some (subtreeUnits st1.tree k.1 k.2.2)) ∧
    alookup k st3.t1 = some (some (subtreeUnits st1.tree k.1 k.2.2)) := by
  have ha := runFrom_none_persist openMap l1 st0 st1 k h1 h0 hq
  have hb := procEntry_txn_captures openMap st1 t st2 k h2 ha ht
  exact ⟨ha, hb, runFrom_resolved_persist openMap l2 st2 st3 k _ h3 hb⟩

/-- Witness for C3: the key `k3` (since-date 2) is captured at 0 — the
balance before the postings of the transaction dated 3 — and keeps the value
0 through the later transaction dated 4 although the balance moves to 12. -/
theorem c3_witness :
    alookup k3 st30.t1 = some none ∧
    alookup k3 st32.t1 = some (some (subtreeUnits st30.tree k3.1 k3.2.2)) ∧
    alookup k3 st33.t1 = some (some (subtreeUnits st30.tree k3.1 k3.2.2)) :=
  c3_snapshot_captured_once (fun _ => none) st30 st30 st32 st33 [] [.txn t4] t3 k3
    (by with_unfolding_all rfl) rfl (by simp) (by decide)
    (by with_unfolding_all rfl) (by with_unfolding_all rfl)

/-- Claim C9 (corrected): when a run succeeds and no directive is dropped
(no unknown-account assertion), the output equals the input, so a second run
on the output returns the same output and the same error list. The
counterexample shows idempotence fails when an assertion is dropped. -/
theorem c9_idempotent_when_no_drop (entries : List Directive)
    (out : List Directive) (errs : List BErr)
    (h : balance_change entries = .ok (out, errs))
    (hk : ∀ e ∈ entries, keptEntry (openMapOf entries) e = true) :
    balance_change out = .ok (out, errs) := by
  have hout : out = entries := by
    obtain ⟨t1, laccs, st, -, -, h3, ho, -⟩ :=
      balance_change_ok_inv entries out errs h
    rw [ho, runFrom_output (openMapOf entries) entries _ st h3]
    simpa using List.filter_eq_self.mpr hk
  rw [hout] at h ⊢
  exact h

/-- Witness for the amended C9 on a passing ledger with no dropped
directive. -/
theorem c9_witness : balance_change exGood = .ok (exGood, []) :=
  c9_idempotent_when_no_drop exGood exGood []
    (by with_unfolding_all rfl) (by decide)

/-- Claim C10 (confirmed): nodes are pre-created exactly for the ledger
accounts that are an asserted account or lie below one, closed under the
ancestors `get_or_create` adds on the path; the parent matcher respects
colon segment boundaries (Assets:BankA covers Assets:BankA:Checking but
never Assets:BankAlpha); and a posting to an account without a node leaves
the balance tree unchanged. -/
theorem c10_node_precreation (entries : List Directive) (accs L : List Account)
    (ha : assertedAccountsE entries = .ok accs)
    (h : initAccounts entries = .ok L) :
    (∀ x, x ∈ L ↔ ∃ b ∈ (get_accounts entries).filter
        (fun a => a ∈ accs || accs.any fun p => parentMatch p a),
        x ∈ nodePathsOf b) ∧
    parentMatch "Assets:BankA" "Assets:BankA:Checking" = true ∧
    parentMatch "Assets:BankA" "Assets:BankAlpha" = false ∧
    (∀ (tr : RealTree) (p : Posting), p.account ∉ tr.accounts →
      applyPosting tr p = tr) := by
  refine ⟨?_, by decide, by decide, fun tr p hp => by simp [applyPosting, hp]⟩
  obtain ⟨accs2, ha2, hL⟩ := initAccounts_inv entries L h
  rw [ha] at ha2
  cases ha2
  intro x
  rw [hL, foldl_getOrCreate_mem]
  simp

/-- Witness for C10 on a concrete ledger: the assertion on Assets:BankA
creates exactly the nodes Assets, Assets:BankA and Assets:BankA:Checking —
no node for Assets:BankAlpha. -/
theorem c10_witness :
    (∀ x, x ∈ ["Assets", "Assets:BankA", "Assets:BankA:Checking"] ↔
      ∃ b ∈ (get_accounts exC10).filter
        (fun a => a ∈ ["Assets:BankA"] ||
          ["Assets:BankA"].any fun p => parentMatch p a),
        x ∈ nodePathsOf b) ∧
    parentMatch "Assets:BankA" "Assets:BankA:Checking" = true ∧
    parentMatch "Assets:BankA" "Assets:BankAlpha" = false ∧
    (∀ (tr : RealTree) (p : Posting), p.account ∉ tr.accounts →
      applyPosting tr p = tr) :=
  c10_node_precreation exC10 ["Assets:BankA"]
    ["Assets", "Assets:BankA", "Assets:BankA:Checking"]
    (by with_unfolding_all rfl) (by with_unfolding_all rfl)


/-- Claim C5 (corrected): the transform returns a complete output sequence
and error list — it cannot crash — on every input accepted by
`wellFormedB`: all assertion expressions regex-extract an account, each
store account has a pre-created node, each assertion (on a known account)
finds its own triple among the store keys, and some earlier transaction
reached its since-date. The counterexample shows the unconditional claim is
false: a single malformed assertion aborts the whole pass. -/
theorem c5_total_when_well_formed (entries : List Directive)
    (h : wellFormedB entries = true) :
    isOkB (balance_change entries) = true := by
  unfold wellFormedB at h
  cases h1 : t1Init entries with
  | error e =>
    simp only [h1] at h
    exact absurd h (by simp)
  | ok t10 =>
    cases h2 : initAccounts entries with
    | error e =>
      simp only [h1, h2] at h
      exact absurd h (by simp)
    | ok L0 =>
      simp only [h1, h2, Bool.and_eq_true, List.all_eq_true] at h
      obtain ⟨hall, hwf⟩ := h
      have hallm : ∀ kv ∈ t10, kv.1.1 ∈ L0 := by
        intro kv hkv
        exact of_decide_eq_true (hall kv hkv)
      obtain ⟨st', hrun⟩ := runFrom_ok_of_wf (openMapOf entries) L0 t10 hallm
        entries [] ⟨⟨L0, []⟩, t10, [], []⟩ rfl rfl
        (fun k _ hd => absurd hd (by simp)) hwf
      unfold balance_change
      simp [h1, h2, hrun, Bind.bind, Except.bind, isOkB]

/-- Witness for the amended C5 on a passing concrete ledger. -/
theorem c5_witness : isOkB (balance_change exGood) = true :=
  c5_total_when_well_formed exGood (by with_unfolding_all rfl)

end BalanceChange
